import Mathlib

/-!
# Verification of the Devito→YASK translation module (`devito/yask/transformer.py`)

A shallow embedding of the two procedures `yaskizer` (condition synthesizer)
and `make_yask_ast` (expression translator), together with theorems settling
the stated properties of the module.

Modelling conventions:
* Symbolic (sympy/devito) expressions become the inductive `DExpr`; the devito
  `Function` objects a symbol/indexed references become `DFun`.
* YASK AST nodes are opaque values produced only by factory calls (`nfac.*`);
  they become the inductive `YNode`, one constructor per factory.
* The mutable grid registry (`mapper`), the grids instantiated on the YASK
  compiler solution, the logged warnings and the dependency-checker toggle form
  the explicit state `TState`, threaded through all calls.
* Python exceptions are the error type `YErr`, one constructor per raise site
  kind: `NotImplementedError` (= spec `UnsupportedConstruct`), the mapper
  asserts in `make_yask_ast` (= spec `InvariantViolation`), the bare
  `assert False` in `yaskizer`, `TypeError` (from `int(...)`/`extent()` on
  symbolic values, or from passing Python `None` into a SWIG factory), and
  `IndexError` (from `args[0]` on an empty argument list).
* Machine floats are modelled as rationals (`ℚ`); no claim depends on
  floating-point rounding.
-/

namespace DevitoYask

/-- Classification of a devito `Dimension`: the translator asks the dimension
symbol `expr.is_Time` / `expr.is_Space`, and else treats it as a misc
(non-spatial, non-temporal integer) axis. -/
inductive DimSort where
  | time
  | space
  | misc
  deriving DecidableEq, Repr

/-- Modelled from the spec: a devito `Function`/array placeholder (external to
the translated file), "identified by name; tagged as Constant (scalar),
Dimension (loop index), or general array; carries declared index axes".
A DSE-generated temporary is none of the three tags. -/
inductive DFun where
  | constant (name : String)
  | dimension (name : String) (sort : DimSort)
  | array (name : String) (axes : List (String × DimSort))
  | temporary (name : String)
  deriving DecidableEq, Repr

/-- `function.is_Constant` in the source. -/
def DFun.is_Constant : DFun → Bool
  | .constant _ => true
  | _ => false

/-- `function.is_Dimension` in the source. -/
def DFun.is_Dimension : DFun → Bool
  | .dimension _ _ => true
  | _ => false

/-- `function.name` in the source. -/
def DFun.pyName : DFun → String
  | .constant n => n
  | .dimension n _ => n
  | .array n _ => n
  | .temporary n => n

/-- The warning text logged for a zero integer exponent. -/
def zeroPowWarning : String :=
  "0-power found in Devito-YASK translation? setting to 1"

/-- Modelled from the spec: the per-axis index expressions of an `Indexed`
access, in the three shapes the translator distinguishes (lines 141-152 of the
source): a `LoweredDimension` (replaced by its `origin`, a dimension plus an
integer step shift), a pure integer offset (a misc dimension), and an affine
index split by the external `split_affine` into a base dimension (`var`,
possibly a derived sub-dimension whose parent must be used) plus an integer
shift. -/
inductive YIndex where
  | lowered (origin : String × DimSort) (shift : Int)
  | intIdx (n : Int)
  | affine (var : String × DimSort) (varIsDerived : Bool)
      (parent : String × DimSort) (shift : Int)
  deriving DecidableEq, Repr

/-- The symbolic expression tree handed to the translator: node kinds
{Integer, Float, Rational, Symbol, Indexed, Add, Mul, Pow, Equality}, plus a
representative of every other (unsupported) sympy node kind. -/
inductive DExpr where
  | integer (n : Int)
  | float (v : ℚ)
  | rational (num den : Int)
  | symbol (f : DFun)
  | indexed (f : DFun) (idxs : List YIndex)
  | add (args : List DExpr)
  | mul (args : List DExpr)
  | pow (base exp : DExpr)
  | eq (lhs rhs : DExpr)
  | unsupportedKind

/-- `exp.is_integer` for the exponent of a `Pow`: statically-known-integer
exponents reach the translator as sympy `Integer` literals. -/
def DExpr.is_integer : DExpr → Bool
  | .integer _ => true
  | _ => false

/-- A YASK AST node; one constructor per factory call of the node factory
`nfac` used by the source. -/
inductive YNode where
  | num (v : ℚ)
  | stepIndex (name : String)
  | domainIndex (name : String)
  | miscIndex (name : String)
  | firstIndex (dim : YNode)
  | lastIndex (dim : YNode)
  | addOp (a b : YNode)
  | mulOp (a b : YNode)
  | divOp (a b : YNode)
  | gridPoint (grid : String) (idxs : List YNode)
  | notLess (a b : YNode)
  | notGreater (a b : YNode)
  | equalsOp (a b : YNode)
  | andOp (a b : YNode)
  | equation (l r : YNode)

/- The YASK node factory `nfac`; each factory returns a fresh node value. -/
namespace nfac

abbrev new_const_number_node (v : ℚ) : YNode := .num v
abbrev new_step_index (name : String) : YNode := .stepIndex name
abbrev new_domain_index (name : String) : YNode := .domainIndex name
abbrev new_misc_index (name : String) : YNode := .miscIndex name
abbrev new_first_domain_index (dim : YNode) : YNode := .firstIndex dim
abbrev new_last_domain_index (dim : YNode) : YNode := .lastIndex dim
abbrev new_add_node (a b : YNode) : YNode := .addOp a b
abbrev new_multiply_node (a b : YNode) : YNode := .mulOp a b
abbrev new_divide_node (a b : YNode) : YNode := .divOp a b
abbrev new_not_less_than_node (a b : YNode) : YNode := .notLess a b
abbrev new_not_greater_than_node (a b : YNode) : YNode := .notGreater a b
abbrev new_equals_node (a b : YNode) : YNode := .equalsOp a b
abbrev new_and_node (a b : YNode) : YNode := .andOp a b
abbrev new_equation_node (a b : YNode) : YNode := .equation a b

end nfac

/-- A value stored in the grid registry `mapper`: either a YASK grid handle
(created by `yc_soln.new_grid`) for Constant scalars and arrays, or the
already-translated node of a scalar temporary bound by an `Equality`
(the Python code stores the raw return of `make_yask_ast`, which may be
`None`, hence the `Option`). -/
inductive MapperVal where
  | gridHandle (name : String)
  | node (n : Option YNode)

/-- The Python exceptions that can abort the translation pass. -/
inductive YErr where
  /-- `NotImplementedError`: the spec's `UnsupportedConstruct`. -/
  | unsupportedConstruct
  /-- `AssertionError` from the two mapper-invariant asserts of
  `make_yask_ast` (temporary referenced before bound / bound twice): the
  spec's `InvariantViolation`. -/
  | invariantViolation
  /-- `AssertionError` from the unconditional `assert False` in the direction
  dispatch of `yaskizer` (line 66). -/
  | bareAssertFalse
  /-- `TypeError`: from `int(...)` on a non-numeric symbolic value, from
  `i.extent()` on a statically unknown extent, or from handing Python `None`
  to a SWIG-wrapped node factory. -/
  | typeError
  /-- `IndexError`: `args[0]` on an empty argument list. -/
  | indexError
  deriving DecidableEq, Repr

/-- Every symbolic expression node has positive size. -/
theorem DExpr.one_le_sizeOf : ∀ e : DExpr, 1 ≤ sizeOf e := by
  intro e
  cases e <;> simp <;> omega

/-- The mutable state threaded through one translation pass: the grid registry
`mapper` (insertion-ordered), the grids instantiated on the YASK compiler
solution by `yc_soln.new_grid` (name and axis nodes), the warnings logged so
far, and the solution's dependency-checker toggle. -/
structure TState where
  mapper : List (DFun × MapperVal) := []
  grids : List (String × List YNode) := []
  warnings : List String := []
  depCheckEnabled : Bool := true

/-- The empty state at the start of a translation pass. -/
def initState : TState := {}

/-- First-match association lookup, the Python `function in mapper` /
`mapper[function]` pair. -/
def mapper_lookup (f : DFun) : List (DFun × MapperVal) → Option MapperVal
  | [] => none
  | (g, v) :: rest => if g = f then some v else mapper_lookup f rest

/-- Python dict assignment `mapper[function] = v`: replace the value if the
key is present, else append. -/
def mapper_insert (f : DFun) (v : MapperVal) :
    List (DFun × MapperVal) → List (DFun × MapperVal)
  | [] => [(f, v)]
  | (g, w) :: rest =>
    if g = f then (g, v) :: rest else (g, w) :: mapper_insert f v rest

/-- Translation of a bare dimension symbol (the `function.is_Dimension` branch
of `make_yask_ast`): a step index if the symbol is temporal, a domain index if
spatial, else a misc index.  The declared axes of an array and the dimension
parts of index expressions are always such symbols, so their recursive
`make_yask_ast` calls reduce to this. -/
def dim_to_node : String × DimSort → YNode
  | (name, .time) => nfac.new_step_index name
  | (name, .space) => nfac.new_domain_index name
  | (name, .misc) => nfac.new_misc_index name

/-- Translation of one per-axis index of an `Indexed` access (source lines
141-152): a `LoweredDimension` is replaced by its `origin` before translation;
a pure integer index translates to a constant; any other index is decomposed
by `split_affine` into a base dimension plus an integer shift and translated
as `dimension + shift` (using the parent dimension when the base is derived).
sympy evaluates `dim + 0` to `dim`, so a zero shift yields the bare dimension
node. -/
def idx_to_node : YIndex → YNode
  | .lowered origin shift =>
    if shift = 0 then dim_to_node origin
    else nfac.new_add_node (dim_to_node origin) (nfac.new_const_number_node shift)
  | .intIdx n => nfac.new_const_number_node n
  | .affine var isDerived parent shift =>
    let dim := if isDerived then parent else var
    if shift = 0 then dim_to_node dim
    else nfac.new_add_node (dim_to_node dim) (nfac.new_const_number_node shift)

mutual

/-- The expression translator `make_yask_ast(expr, yc_soln, mapper)` of the
source, with the solution/registry state made explicit.  Returns the produced
node, or `none` when the expression was a pure local binding (the
Equality-onto-temporary case falls off the `if` chain without a `return`). -/
def make_yask_ast : DExpr → TState → Except YErr (Option YNode × TState)
  | .integer n, st =>
    .ok (some (nfac.new_const_number_node (n : ℚ)), st)
  | .float v, st =>
    .ok (some (nfac.new_const_number_node v), st)
  | .rational a b, st =>
    -- float(a)/float(b); float division modelled as exact rational division
    .ok (some (nfac.new_const_number_node ((a : ℚ) / (b : ℚ))), st)
  | .symbol f, st =>
    if f.is_Constant then
      -- a Constant: a zero-dimension grid, created on first use
      match mapper_lookup f st.mapper with
      | none =>
        let st1 : TState := { st with
          grids := st.grids ++ [(f.pyName, [])],
          mapper := mapper_insert f (.gridHandle f.pyName) st.mapper }
        .ok (some (YNode.gridPoint f.pyName []), st1)
      | some (.gridHandle g) => .ok (some (YNode.gridPoint g []), st)
      | some (.node _) =>
        -- a non-grid registry entry has no `new_grid_point` attribute
        .error .typeError
    else if f.is_Dimension then
      match f with
      | .dimension name sort => .ok (some (dim_to_node (name, sort)), st)
      | _ => .error .typeError   -- unreachable: is_Dimension holds
    else
      -- a DSE-generated temporary, which must already have been
      -- encountered as a LHS of a previous expression
      match mapper_lookup f st.mapper with
      | none => .error .invariantViolation      -- assert function in mapper
      | some (.node n) => .ok (n, st)
      | some (.gridHandle _) =>
        -- a grid handle is not an AST node; fails downstream
        .error .typeError
  | .indexed f idxs, st =>
    match f with
    | .array name axes =>
      -- create a YASK compiler grid on first encounter of the Function;
      -- the declared axes are dimension symbols, whose `make_yask_ast`
      -- translations are `dim_to_node`
      let indices := idxs.map idx_to_node
      match mapper_lookup f st.mapper with
      | none =>
        let dims := axes.map dim_to_node
        let st1 : TState := { st with
          grids := st.grids ++ [(name, dims)],
          mapper := mapper_insert f (.gridHandle name) st.mapper }
        .ok (some (YNode.gridPoint name indices), st1)
      | some (.gridHandle g) => .ok (some (YNode.gridPoint g indices), st)
      | some (.node _) => .error .typeError
    | _ =>
      -- a non-array Function carries no declared `.indices`
      .error .typeError
  | .add args, st => nary2binary args nfac.new_add_node st
  | .mul args, st => nary2binary args nfac.new_multiply_node st
  | .pow b e, st =>
    match e with
    | .integer n =>
      if n < 0 then
        -- num, den = expr.as_numer_denom(): for a Pow with negative integer
        -- exponent sympy yields (1, b**(-n)).  make_yask_ast(num) is the
        -- first constant-number branch, inlined here: it returns the
        -- constant node 1 with the state unchanged.  The denominator's
        -- translation, b**(-n) with -n ≥ 1, is `pow_unroll b (-n).toNat`
        -- (see `make_yask_ast_pow_pos`).
        let rn : Option YNode := some (nfac.new_const_number_node ((1 : Int) : ℚ))
        match pow_unroll b (-n).toNat st with
        | .error err => .error err
        | .ok (rd, st2) =>
          match rn, rd with
          | some x, some y => .ok (some (nfac.new_divide_node x y), st2)
          | _, _ => .error .typeError
      else if 1 ≤ n then
        -- nary2binary([base] * exp, nfac.new_multiply_node)
        pow_unroll b n.toNat st
      else
        -- 0-power found in Devito-YASK translation? setting to 1
        .ok (some (nfac.new_const_number_node 1),
             { st with warnings := st.warnings ++ [zeroPowWarning] })
    | _ =>
      -- non-integer powers unsupported in Devito-YASK translation
      .error .unsupportedConstruct
  | .eq (.symbol f) r, st =>
    -- expr.lhs.is_Symbol: a scalar temporary on the LHS is a pure local
    -- binding, no node returned
    match mapper_lookup f st.mapper with
    | some _ => .error .invariantViolation    -- assert function not in mapper
    | none =>
      match make_yask_ast r st with
      | .error err => .error err
      | .ok (rr, st1) =>
        .ok (none, { st1 with mapper := mapper_insert f (.node rr) st1.mapper })
  | .eq l r, st =>
    -- (l is not a bare symbol here)
    -- new_equation_node(*[make_yask_ast(i, ...) for i in expr.args])
    match make_yask_ast l st with
    | .error err => .error err
    | .ok (rl, st1) =>
      match make_yask_ast r st1 with
      | .error err => .error err
      | .ok (rr, st2) =>
        match rl, rr with
        | some x, some y => .ok (some (nfac.new_equation_node x y), st2)
        | _, _ => .error .typeError
  | .unsupportedKind, st =>
    -- Missing handler in Devito-YASK translation
    let _ := st
    .error .unsupportedConstruct
termination_by e _ => (sizeOf e, 0)
decreasing_by
  all_goals simp_wf
  all_goals
    first
    | exact Prod.Lex.right _ (by omega)
    | exact Prod.Lex.left _ _ (by omega)

/-- The inner `nary2binary(args, op)` of the source: right-fold an n-ary
argument list into nested binary nodes; a single-argument list returns the
translated argument directly (whatever it is, including `None`).  An empty
list would hit `args[0]` (an `IndexError`); an argument translating to `None`
reaches the binary factory and fails there (`TypeError`). -/
def nary2binary : List DExpr → (YNode → YNode → YNode) → TState →
    Except YErr (Option YNode × TState)
  | [], _, _ => .error .indexError
  | [a], _, st => make_yask_ast a st
  | a :: rest, op, st =>
    match make_yask_ast a st with
    | .error err => .error err
    | .ok (r, st1) =>
      match nary2binary rest op st1 with
      | .error err => .error err
      | .ok (rr, st2) =>
        match r, rr with
        | some x, some y => .ok (some (op x y), st2)
        | _, _ => .error .typeError
termination_by args _ _ => (sizeOf args, 0)
decreasing_by
  all_goals simp_wf
  all_goals
    first
    | exact Prod.Lex.right _ (by omega)
    | exact Prod.Lex.left _ _ (by omega)

/-- `nary2binary([base] * k, nfac.new_multiply_node)` unrolled on the copy
count `k`, used by the `Pow` branches; `pow_unroll_eq_nary2binary` proves it
equal to `nary2binary` on the replicated list. -/
def pow_unroll : DExpr → Nat → TState → Except YErr (Option YNode × TState)
  | _, 0, _ => .error .indexError
  | b, 1, st => make_yask_ast b st
  | b, k + 2, st =>
    match make_yask_ast b st with
    | .error err => .error err
    | .ok (r, st1) =>
      match pow_unroll b (k + 1) st1 with
      | .error err => .error err
      | .ok (rr, st2) =>
        match r, rr with
        | some x, some y => .ok (some (nfac.new_multiply_node x y), st2)
        | _, _ => .error .typeError
termination_by b k _ => (sizeOf b + 1, k)
decreasing_by
  all_goals simp_wf
  all_goals
    first
    | exact Prod.Lex.right _ (by omega)
    | exact Prod.Lex.left _ _ (by omega)

end

/-- Modelled from the spec: the traversal direction of an iteration,
"direction {Forward, Backward, other}". -/
inductive Direction where
  | forward
  | backward
  | other
  deriving DecidableEq, Repr

/-- Modelled from the spec: one enclosing iteration of an iteration tree, as
queried by the synthesizer (the `Iteration` objects of the iteration-tree API
live outside this module).  `ofsLower`/`ofsUpper` are the results of
`int(i.dim.symbolic_ofs_lower/upper)`: `none` models the `TypeError` raised by
`int` on a statically unknown offset.  `extentVal` is the result of
`i.extent()`: `none` models the further `TypeError` raised there when the
extent is only dynamically known (source comment, lines 54-56). -/
structure Iteration where
  dimIsSub : Bool
  dimParentName : String
  ofsLower : Option Int
  ofsUpper : Option Int
  isSequential : Bool
  extentVal : Option Nat
  direction : Direction
  deriving DecidableEq, Repr

/-- Modelled from the spec: one offloadable iteration tree; `expressions` are
the expressions of the `Expression` nodes found in `tree.root` (in visit
order), `iterations` the iterations yielded by `for i in tree`. -/
structure IterTree where
  expressions : List DExpr
  iterations : List Iteration

/-- A YASK equation appended to the `processed` list: the equation node
together with the guard attached to it by `set_cond` (if any). -/
structure ProcEq where
  eqn : YNode
  cond : Option YNode

/-- The unwinding of one sequential sub-region iteration with statically
unknown offsets (source lines 68-74) when `_range` is a re-iterable Python
`range` object (the Forward branch): every (expression, conditions) pair is
replicated once per offset `r` in `rng`, the replica carrying the added
equality predicate `ydim == node + r`. -/
def unwind (ydim node : YNode) (rng : List Int)
    (conditions : List (DExpr × List YNode)) : List (DExpr × List YNode) :=
  conditions.flatMap fun p =>
    rng.map fun (r : Int) =>
      (p.1, p.2 ++ [nfac.new_equals_node ydim
        (nfac.new_add_node node (nfac.new_const_number_node (r : ℚ)))])

/-- The unwinding of source lines 68-74 when `_range` is a one-shot Python
iterator (the Backward branch's `reversed(range(extent))` at line 60): the
inner `for r in _range` loop exhausts the iterator while processing the first
(expression, conditions) pair, so only that pair is replicated over `rng`;
every later pair iterates an exhausted iterator, receives zero replicas, and
is silently dropped from the resulting conditions list. -/
def unwind_once (ydim node : YNode) (rng : List Int)
    (conditions : List (DExpr × List YNode)) : List (DExpr × List YNode) :=
  match conditions with
  | [] => []
  | p :: _ =>
    rng.map fun (r : Int) =>
      (p.1, p.2 ++ [nfac.new_equals_node ydim
        (nfac.new_add_node node (nfac.new_const_number_node (r : ℚ)))])

/-- `reversed(range(extent))` as a list of integers. -/
def backward_range (extent : Nat) : List Int :=
  (List.range extent).reverse.map Int.ofNat

/-- `range(-extent + 1, 1)` as a list of integers. -/
def forward_range (extent : Nat) : List Int :=
  (List.range extent).map fun (k : Nat) => -(extent : Int) + 1 + (k : Int)

/-- The body of the per-iteration loop of `yaskizer` (source lines 35-78):
skip iterations whose dimension is not a sub-dimension; with statically known
offsets append the two edge-inclusion comparisons to every expression's
condition list; otherwise unwind a sequential iteration of statically known
extent into one replica per offset, and fail on everything else.  In the
Backward branch `_range = reversed(range(extent))` is a one-shot iterator, so
the unwinding replicates only the first (expression, conditions) pair
(`unwind_once`); in the Forward branch `_range = range(-extent + 1, 1)` is
re-iterable and every pair is replicated (`unwind`). -/
def subdomain_conditions (i : Iteration)
    (conditions : List (DExpr × List YNode)) :
    Except YErr (List (DExpr × List YNode)) :=
  if i.dimIsSub = false then .ok conditions
  else
    let ydim := nfac.new_domain_index i.dimParentName
    match i.ofsLower, i.ofsUpper with
    | some lower, some upper =>
      -- the extremes are statically known: add the conditions
      let e1 := nfac.new_add_node (nfac.new_first_domain_index ydim)
        (nfac.new_const_number_node lower)
      let c1 := conditions.map fun p =>
        (p.1, p.2 ++ [nfac.new_not_less_than_node ydim e1])
      let e2 := nfac.new_add_node (nfac.new_last_domain_index ydim)
        (nfac.new_const_number_node upper)
      .ok (c1.map fun p =>
        (p.1, p.2 ++ [nfac.new_not_greater_than_node ydim e2]))
    | _, _ =>
      -- except TypeError: is at least the Iteration extent statically known?
      if i.isSequential then
        match i.extentVal with
        | none => .error .typeError    -- TypeError from i.extent(), uncaught
        | some extent =>
          match i.direction with
          | .backward =>
            .ok (unwind_once ydim (nfac.new_first_domain_index ydim)
              (backward_range extent) conditions)
          | .forward =>
            .ok (unwind ydim (nfac.new_last_domain_index ydim)
              (forward_range extent) conditions)
          | .other => .error .bareAssertFalse     -- assert False
      else
        -- YASK does not support parallel Iterations over sub-dimensions
        -- with statically unknown extents
        .error .unsupportedConstruct

/-- Fold of `subdomain_conditions` over all iterations of one tree. -/
def attach_conditions (its : List Iteration)
    (conditions : List (DExpr × List YNode)) :
    Except YErr (List (DExpr × List YNode)) :=
  match its with
  | [] => .ok conditions
  | i :: rest =>
    match subdomain_conditions i conditions with
    | .error err => .error err
    | .ok conds => attach_conditions rest conds

/-- The equation-building loop of `yaskizer` (source lines 81-92): translate
each expression; skip it if translation yields no node; else conjoin its
collected conditions (if any) left-to-right into a single guard, attach the
guard, and append the equation to the `processed` list. -/
def process_conditions (conds : List (DExpr × List YNode))
    (processed : List ProcEq) (st : TState) :
    Except YErr (List ProcEq × TState) :=
  match conds with
  | [] => .ok (processed, st)
  | (k, v) :: rest =>
    match make_yask_ast k st with
    | .error err => .error err
    | .ok (none, st1) => process_conditions rest processed st1
    | .ok (some yask_expr, st1) =>
      let pe : ProcEq :=
        match v with
        | [] => { eqn := yask_expr, cond := none }
        | c :: cs => { eqn := yask_expr, cond := some (cs.foldl nfac.new_and_node c) }
      process_conditions rest (processed ++ [pe]) st1

/-- Processing of one iteration tree (source lines 29-92). -/
def process_tree (tree : IterTree) (processed : List ProcEq) (st : TState) :
    Except YErr (List ProcEq × TState) :=
  let conditions := tree.expressions.map fun e => (e, ([] : List YNode))
  match attach_conditions tree.iterations conditions with
  | .error err => .error err
  | .ok conds => process_conditions conds processed st

/-- The main loop of `yaskizer` over all trees. -/
def yaskizer_loop (trees : List IterTree) (processed : List ProcEq)
    (st : TState) : Except YErr (List ProcEq × TState) :=
  match trees with
  | [] => .ok (processed, st)
  | tree :: rest =>
    match process_tree tree processed st with
    | .error err => .error err
    | .ok (processed1, st1) => yaskizer_loop rest processed1 st1

/-- The flow-dependency registrations of source lines 96-97:
`for to, frm in zip(processed, processed[1:]): add_flow_dependency(frm, to)`.
Each recorded pair is the argument pair `(frm, to)` of one
`add_flow_dependency` call. -/
def mk_flow_deps (processed : List ProcEq) : List (ProcEq × ProcEq) :=
  (processed.zip processed.tail).map fun p => (p.2, p.1)

/-- `yaskizer(trees, yc_soln)`: disable the solution's dependency checker,
process every tree, then register the sequential flow dependencies.  Returns
the `processed` equations, the `add_flow_dependency` argument pairs, and the
final state (whose `mapper` field is the function's Python return value). -/
def yaskizer (trees : List IterTree) (st : TState) :
    Except YErr (List ProcEq × List (ProcEq × ProcEq) × TState) :=
  -- It's up to Devito to organize the equations into a flow graph
  let st0 : TState := { st with depCheckEnabled := false }
  match yaskizer_loop trees [] st0 with
  | .error err => .error err
  | .ok (processed, st1) => .ok (processed, mk_flow_deps processed, st1)

/-! ## Analysis helpers -/

/-- Sequential translation of an argument list, requiring every argument to
yield a node.  `translate_list args` records, for an argument list whose
members all translate successfully to nodes, the list of produced nodes and
the final state; it is related to `nary2binary` by
`nary2binary_of_translate_list`. -/
def translate_list : List DExpr → TState → Except YErr (List YNode × TState)
  | [], st => .ok ([], st)
  | a :: rest, st =>
    match make_yask_ast a st with
    | .error err => .error err
    | .ok (none, _) => .error .typeError
    | .ok (some n, st1) =>
      match translate_list rest st1 with
      | .error err => .error err
      | .ok (ns, st2) => .ok (n :: ns, st2)

/-- The right-associated binary fold shape that `nary2binary` produces over
the translated argument nodes: `fold_binary op n [m₁, m₂, …]` is
`op n (op m₁ (op m₂ …))`. -/
def fold_binary (op : YNode → YNode → YNode) : YNode → List YNode → YNode
  | n, [] => n
  | n, m :: ms => op n (fold_binary op m ms)

/-- The immediate children of a YASK node. -/
def subnodes : YNode → List YNode
  | .num _ => []
  | .stepIndex _ => []
  | .domainIndex _ => []
  | .miscIndex _ => []
  | .firstIndex d => [d]
  | .lastIndex d => [d]
  | .addOp a b => [a, b]
  | .mulOp a b => [a, b]
  | .divOp a b => [a, b]
  | .gridPoint _ idxs => idxs
  | .notLess a b => [a, b]
  | .notGreater a b => [a, b]
  | .equalsOp a b => [a, b]
  | .andOp a b => [a, b]
  | .equation a b => [a, b]

/-- A child of a node is smaller than the node. -/
theorem sizeOf_lt_of_mem_subnodes {m n : YNode} (h : m ∈ subnodes n) :
    sizeOf m < sizeOf n := by
  cases n <;> simp [subnodes] at h <;>
    first
    | (subst h; simp <;> omega)
    | (rcases h with h | h <;> subst h <;> simp <;> omega)
    | (have hlt := List.sizeOf_lt_of_mem h; simp <;> omega)

/-- Number of nodes satisfying `p` in the node tree. -/
def count_where (p : YNode → Bool) (n : YNode) : Nat :=
  (if p n then 1 else 0) +
    ((subnodes n).attach.map fun x => count_where p x.1).sum
termination_by sizeOf n
decreasing_by exact sizeOf_lt_of_mem_subnodes x.2

/-- `count_where` in terms of the plain children list. -/
theorem count_where_eq (p : YNode → Bool) (n : YNode) :
    count_where p n =
      (if p n then 1 else 0) + ((subnodes n).map (count_where p)).sum := by
  rw [count_where, List.attach_map_coe]

/-- Is this node a binary multiply node? -/
def is_mulOp : YNode → Bool
  | .mulOp _ _ => true
  | _ => false

/-- Is this node a binary add node? -/
def is_addOp : YNode → Bool
  | .addOp _ _ => true
  | _ => false

/-- Is this node a binary divide node? -/
def is_divOp : YNode → Bool
  | .divOp _ _ => true
  | _ => false

/-! ## General lemmas about the translator -/

/-- `count_where` over a `fold_binary` spine whose operator itself satisfies
`p`: the fold contributes one counted node per fold step. -/
theorem count_fold_binary (p : YNode → Bool) (op : YNode → YNode → YNode)
    (hop : ∀ a b, count_where p (op a b) = 1 + count_where p a + count_where p b) :
    ∀ (ms : List YNode) (m : YNode),
      count_where p (fold_binary op m ms) =
        ms.length + count_where p m + (ms.map (count_where p)).sum := by
  intro ms
  induction ms with
  | nil => intro m; simp [fold_binary]
  | cons m2 ms2 ih =>
    intro m
    rw [fold_binary, hop, ih m2]
    simp <;> omega

/-- `count_where` over a `fold_binary` spine whose operator does not satisfy
`p`: the fold contributes no counted node. -/
theorem count_fold_binary_zero (p : YNode → Bool) (op : YNode → YNode → YNode)
    (hop : ∀ a b, count_where p (op a b) = count_where p a + count_where p b) :
    ∀ (ms : List YNode) (m : YNode),
      count_where p (fold_binary op m ms) =
        count_where p m + (ms.map (count_where p)).sum := by
  intro ms
  induction ms with
  | nil => intro m; simp [fold_binary]
  | cons m2 ms2 ih =>
    intro m
    rw [fold_binary, hop, ih m2]
    simp <;> omega

/-- Counting multiply nodes distributes over a multiply node. -/
theorem count_mul_mulOp (a b : YNode) :
    count_where is_mulOp (.mulOp a b) =
      1 + count_where is_mulOp a + count_where is_mulOp b := by
  rw [count_where_eq]
  simp [is_mulOp, subnodes] <;> omega

/-- Counting add nodes distributes over an add node. -/
theorem count_add_addOp (a b : YNode) :
    count_where is_addOp (.addOp a b) =
      1 + count_where is_addOp a + count_where is_addOp b := by
  rw [count_where_eq]
  simp [is_addOp, subnodes] <;> omega

/-- Counting divide nodes distributes over a multiply node without adding. -/
theorem count_div_mulOp (a b : YNode) :
    count_where is_divOp (.mulOp a b) =
      count_where is_divOp a + count_where is_divOp b := by
  rw [count_where_eq]
  simp [is_divOp, subnodes] <;> omega

/-- Counting divide nodes over a divide node. -/
theorem count_div_divOp (a b : YNode) :
    count_where is_divOp (.divOp a b) =
      1 + count_where is_divOp a + count_where is_divOp b := by
  rw [count_where_eq]
  simp [is_divOp, subnodes] <;> omega

/-- A constant node contains no divide node. -/
theorem count_div_num (v : ℚ) : count_where is_divOp (.num v) = 0 := by
  rw [count_where_eq]
  simp [is_divOp, subnodes]

/-- `translate_list` produces one node per argument. -/
theorem translate_list_length :
    ∀ (args : List DExpr) (st : TState) (ns : List YNode) (st' : TState),
      translate_list args st = .ok (ns, st') → ns.length = args.length := by
  intro args
  induction args with
  | nil =>
    intro st ns st' h
    simp [translate_list] at h
    simp [h.1]
  | cons a rest ih =>
    intro st ns st' h
    rw [translate_list] at h
    cases hm : make_yask_ast a st with
    | error err => rw [hm] at h; simp at h
    | ok v =>
      rw [hm] at h
      obtain ⟨r, st1⟩ := v
      cases r with
      | none => simp at h
      | some n =>
        simp at h
        cases ht : translate_list rest st1 with
        | error err => rw [ht] at h; simp at h
        | ok w =>
          rw [ht] at h
          obtain ⟨ns2, st2⟩ := w
          simp at h
          obtain ⟨h1, -⟩ := h
          subst h1
          simp [ih st1 ns2 st2 ht]

/-- When every argument of an n-ary `Add`/`Mul` translates to a node,
`nary2binary` returns the right-associated `fold_binary` of the translated
argument nodes, with the same final state. -/
theorem nary2binary_of_translate_list :
    ∀ (args : List DExpr) (m : YNode) (ms : List YNode) (st st' : TState)
      (op : YNode → YNode → YNode),
      translate_list args st = .ok (m :: ms, st') →
      nary2binary args op st = .ok (some (fold_binary op m ms), st') := by
  intro args
  induction args with
  | nil =>
    intro m ms st st' op h
    simp [translate_list] at h
  | cons a rest ih =>
    intro m ms st st' op h
    rw [translate_list] at h
    cases hm : make_yask_ast a st with
    | error err => rw [hm] at h; simp at h
    | ok v =>
      rw [hm] at h
      obtain ⟨r, st1⟩ := v
      cases r with
      | none => simp at h
      | some n =>
        simp at h
        cases ht : translate_list rest st1 with
        | error err => rw [ht] at h; simp at h
        | ok w =>
          rw [ht] at h
          obtain ⟨ns2, st2⟩ := w
          simp at h
          obtain ⟨⟨h1, h2⟩, h3⟩ := h
          subst h1 h3
          cases rest with
          | nil =>
            simp [translate_list] at ht
            obtain ⟨hns, hst⟩ := ht
            subst hst
            rw [← h2, hns]
            simp [nary2binary, hm, fold_binary]
          | cons a2 rest2 =>
            have hlen := translate_list_length _ _ _ _ ht
            cases ns2 with
            | nil => simp at hlen
            | cons m2 ms2 =>
              rw [← h2]
              rw [nary2binary, hm]
              case x_3 => simp
              simp
              rw [ih m2 ms2 st1 st2 op ht]
              simp [fold_binary]

/-- `pow_unroll b k` is `nary2binary` on `[b] * k`, the literal form of the
source's positive-exponent `Pow` translation. -/
theorem pow_unroll_eq_nary2binary :
    ∀ (k : Nat) (b : DExpr) (st : TState),
      pow_unroll b k st = nary2binary (List.replicate k b) nfac.new_multiply_node st := by
  intro k
  induction k with
  | zero => intro b st; rw [pow_unroll, List.replicate, nary2binary]
  | succ k ih =>
    intro b st
    cases k with
    | zero => simp [pow_unroll, nary2binary, List.replicate]
    | succ k2 =>
      rw [List.replicate_succ, List.replicate_succ]
      rw [pow_unroll, nary2binary]
      case x_3 => simp
      cases hm : make_yask_ast b st with
      | error err => rfl
      | ok v =>
        obtain ⟨r, st1⟩ := v
        simp only [ih b st1]
        rw [← List.replicate_succ]

/-- A positive integer exponent sends the `Pow` translation to the unrolled
repeated multiplication of the base. -/
theorem make_yask_ast_pow_pos (b : DExpr) (n : Int) (st : TState) (h : 1 ≤ n) :
    make_yask_ast (.pow b (.integer n)) st = pow_unroll b n.toNat st := by
  rw [make_yask_ast]
  have h1 : ¬ n < 0 := by omega
  simp [h1, h]

/-- Is this node a last-domain-index node? -/
def is_lastIdx : YNode → Bool
  | .lastIndex _ => true
  | _ => false

/-- Is this node a first-domain-index node? -/
def is_firstIdx : YNode → Bool
  | .firstIndex _ => true
  | _ => false

/-- `unwind` produces one replica per (pair, offset) combination. -/
theorem unwind_length (ydim node : YNode) (rng : List Int) :
    ∀ conditions : List (DExpr × List YNode),
      (unwind ydim node rng conditions).length = conditions.length * rng.length := by
  intro conditions
  induction conditions with
  | nil => simp [unwind]
  | cons c cs ih =>
    have hsplit : unwind ydim node rng (c :: cs)
        = (rng.map fun (r : Int) => (c.1, c.2 ++ [nfac.new_equals_node ydim
            (nfac.new_add_node node (nfac.new_const_number_node (r : ℚ)))]))
          ++ unwind ydim node rng cs := by
      rw [unwind, unwind, List.flatMap_cons]
    rw [hsplit, List.length_append, List.length_map, ih, List.length_cons]
    ring

/-- `unwind_once` produces one replica per offset for the first pair only:
with at least one pair the result has `rng.length` entries, with no pairs it
is empty. -/
theorem unwind_once_length (ydim node : YNode) (rng : List Int) :
    ∀ conditions : List (DExpr × List YNode),
      (unwind_once ydim node rng conditions).length
        = min conditions.length 1 * rng.length := by
  intro conditions
  cases conditions with
  | nil => simp [unwind_once]
  | cons p rest =>
    simp [unwind_once] <;> omega

/-- Two-step unfolding of the flow-dependency zip. -/
theorem mk_flow_deps_cons (a b : ProcEq) (t : List ProcEq) :
    mk_flow_deps (a :: b :: t) = (b, a) :: mk_flow_deps (b :: t) := rfl

/-- The flow-dependency registrations number one less than the processed
equations. -/
theorem mk_flow_deps_length :
    ∀ l : List ProcEq, (mk_flow_deps l).length = l.length - 1 := by
  intro l
  match l with
  | [] => rfl
  | [a] => rfl
  | a :: b :: t =>
    rw [mk_flow_deps_cons]
    simp [mk_flow_deps_length (b :: t)]

/-- The `j`-th flow-dependency registration is the argument pair
`(frm, to) = (processed[j+1], processed[j])`. -/
theorem mk_flow_deps_get :
    ∀ (l : List ProcEq) (j : Nat) (hj : j + 1 < l.length),
      (mk_flow_deps l)[j]? =
        some (l.get ⟨j + 1, hj⟩, l.get ⟨j, by omega⟩) := by
  intro l
  match l with
  | [] => intro j hj; simp at hj
  | [a] => intro j hj; simp at hj
  | a :: b :: t =>
    intro j hj
    rw [mk_flow_deps_cons]
    match j with
    | 0 => simp
    | j2 + 1 =>
      simp only [List.getElem?_cons_succ]
      have hj2 : j2 + 1 < (b :: t).length := by simp at hj ⊢; omega
      rw [mk_flow_deps_get (b :: t) j2 hj2]
      simp [List.get]

/-! ## Claims about the expression translator -/

/-- C7: for every n-ary `Add`/`Mul` whose arguments all translate to
nodes, the produced tree is the right-associated binary fold of the translated
arguments in order, containing exactly `k-1` fresh binary add (resp. multiply)
nodes over the `k` argument translations; and a single-argument list returns
the translated argument directly, with no binary node wrapped around it. -/
theorem C7_nary_add_mul :
    (∀ (args : List DExpr) (m : YNode) (ms : List YNode) (st st' : TState),
      translate_list args st = .ok (m :: ms, st') →
        make_yask_ast (.add args) st
            = .ok (some (fold_binary nfac.new_add_node m ms), st')
        ∧ make_yask_ast (.mul args) st
            = .ok (some (fold_binary nfac.new_multiply_node m ms), st')
        ∧ args.length = ms.length + 1
        ∧ count_where is_addOp (fold_binary nfac.new_add_node m ms)
            = ms.length + count_where is_addOp m
              + (ms.map (count_where is_addOp)).sum
        ∧ count_where is_mulOp (fold_binary nfac.new_multiply_node m ms)
            = ms.length + count_where is_mulOp m
              + (ms.map (count_where is_mulOp)).sum)
    ∧ (∀ (a : DExpr) (st : TState),
        make_yask_ast (.add [a]) st = make_yask_ast a st
        ∧ make_yask_ast (.mul [a]) st = make_yask_ast a st) := by
  constructor
  · intro args m ms st st' h
    refine ⟨?_, ?_, ?_, ?_, ?_⟩
    · rw [make_yask_ast]
      exact nary2binary_of_translate_list args m ms st st' _ h
    · rw [make_yask_ast]
      exact nary2binary_of_translate_list args m ms st st' _ h
    · have := translate_list_length args st (m :: ms) st' h
      simp at this
      omega
    · exact count_fold_binary _ _ count_add_addOp ms m
    · exact count_fold_binary _ _ count_mul_mulOp ms m
  · intro a st
    constructor
    · rw [make_yask_ast, nary2binary]
    · rw [make_yask_ast, nary2binary]

/-- C7 witness: `2 + 3 + 4` translates to the right-associated
`add(2, add(3, 4))` with exactly two fresh add nodes; a singleton `Mul`
returns its argument directly. -/
theorem C7_witness :
    translate_list [.integer 2, .integer 3, .integer 4] initState
        = .ok ([.num 2, .num 3, .num 4], initState)
    ∧ make_yask_ast (.add [.integer 2, .integer 3, .integer 4]) initState
        = .ok (some (.addOp (.num 2) (.addOp (.num 3) (.num 4))), initState)
    ∧ make_yask_ast (.mul [.integer 7]) initState
        = .ok (some (.num 7), initState) := by
  have ht : translate_list [.integer 2, .integer 3, .integer 4] initState
      = .ok ([YNode.num 2, YNode.num 3, YNode.num 4], initState) := by
    simp [translate_list, make_yask_ast]
  refine ⟨ht, ?_, ?_⟩
  · have h := (C7_nary_add_mul.1 [.integer 2, .integer 3, .integer 4]
      (.num 2) [.num 3, .num 4] initState initState ht).1
    rw [h]
    simp [fold_binary]
  · have h := (C7_nary_add_mul.2 (.integer 7) initState).2
    rw [h]
    simp [make_yask_ast]

/-- C3: a `Pow` with a non-integer exponent fails fatally with
`UnsupportedConstruct`; an integer exponent `n ≥ 1` produces the `n`-fold
right-folded multiplication of the base, i.e. exactly `n - 1` fresh multiply
nodes over the `n` base translations; an integer exponent `n ≤ -1` produces
exactly one fresh divide node whose numerator is the constant `1` and whose
denominator is the `(-n)`-fold right-folded multiplication of the base; and a
zero exponent produces the constant node `1` and appends the logged warning,
without failing. -/
theorem C3_pow_cases :
    (∀ (b e : DExpr) (st : TState), e.is_integer = false →
        make_yask_ast (.pow b e) st = .error .unsupportedConstruct)
    ∧ (∀ (b : DExpr) (n : Int) (st st' : TState) (m : YNode) (ms : List YNode),
        1 ≤ n →
        translate_list (List.replicate n.toNat b) st = .ok (m :: ms, st') →
          make_yask_ast (.pow b (.integer n)) st
              = .ok (some (fold_binary nfac.new_multiply_node m ms), st')
          ∧ ms.length + 1 = n.toNat
          ∧ count_where is_mulOp (fold_binary nfac.new_multiply_node m ms)
              = ms.length + count_where is_mulOp m
                + (ms.map (count_where is_mulOp)).sum)
    ∧ (∀ (b : DExpr) (n : Int) (st st' : TState) (m : YNode) (ms : List YNode),
        n ≤ -1 →
        translate_list (List.replicate (-n).toNat b) st = .ok (m :: ms, st') →
          make_yask_ast (.pow b (.integer n)) st
              = .ok (some (.divOp (.num 1) (fold_binary nfac.new_multiply_node m ms)), st')
          ∧ ms.length + 1 = (-n).toNat
          ∧ count_where is_divOp
                (.divOp (.num 1) (fold_binary nfac.new_multiply_node m ms))
              = 1 + count_where is_divOp m
                + (ms.map (count_where is_divOp)).sum)
    ∧ (∀ (b : DExpr) (st : TState),
        make_yask_ast (.pow b (.integer 0)) st
          = .ok (some (.num 1),
                 { st with warnings := st.warnings ++ [zeroPowWarning] })) := by
  refine ⟨?_, ?_, ?_, ?_⟩
  · intro b e st h
    cases e <;> simp [DExpr.is_integer] at h <;> (rw [make_yask_ast] <;> simp)
  · intro b n st st' m ms hn ht
    have hlen := translate_list_length _ _ _ _ ht
    simp at hlen
    refine ⟨?_, ?_, ?_⟩
    · rw [make_yask_ast_pow_pos b n st hn, pow_unroll_eq_nary2binary]
      exact nary2binary_of_translate_list _ m ms st st' _ ht
    · omega
    · exact count_fold_binary _ _ count_mul_mulOp ms m
  · intro b n st st' m ms hn ht
    have hlen := translate_list_length _ _ _ _ ht
    simp at hlen
    have hneg : n < 0 := by omega
    refine ⟨?_, ?_, ?_⟩
    · rw [make_yask_ast]
      simp only [hneg, if_pos]
      rw [pow_unroll_eq_nary2binary,
        nary2binary_of_translate_list _ m ms st st' _ ht]
      simp
    · omega
    · rw [count_div_divOp, count_div_num,
        count_fold_binary_zero _ _ count_div_mulOp ms m]
      omega
  · intro b st
    rw [make_yask_ast]
    norm_num

/-- C3 witness: `x**(1/2)` fails with `UnsupportedConstruct`; `2**3`
becomes `mul(2, mul(2, 2))` (two fresh multiply nodes); `2**(-2)` becomes
`div(1, mul(2, 2))` (one fresh divide node); `2**0` becomes the constant `1`
with the warning logged. -/
theorem C3_witness :
    make_yask_ast (.pow (.integer 2) (.rational 1 2)) initState
        = .error .unsupportedConstruct
    ∧ translate_list (List.replicate ((3 : Int)).toNat (.integer 2)) initState
        = .ok ([.num 2, .num 2, .num 2], initState)
    ∧ make_yask_ast (.pow (.integer 2) (.integer 3)) initState
        = .ok (some (.mulOp (.num 2) (.mulOp (.num 2) (.num 2))), initState)
    ∧ translate_list (List.replicate (-(-2 : Int)).toNat (.integer 2)) initState
        = .ok ([.num 2, .num 2], initState)
    ∧ make_yask_ast (.pow (.integer 2) (.integer (-2))) initState
        = .ok (some (.divOp (.num 1) (.mulOp (.num 2) (.num 2))), initState)
    ∧ make_yask_ast (.pow (.integer 2) (.integer 0)) initState
        = .ok (some (.num 1), { initState with warnings := [zeroPowWarning] }) := by
  have ht3 : translate_list (List.replicate ((3 : Int)).toNat (.integer 2)) initState
      = .ok ([YNode.num 2, YNode.num 2, YNode.num 2], initState) := by
    simp [translate_list, make_yask_ast, List.replicate]
  have ht2 : translate_list (List.replicate (-(-2 : Int)).toNat (.integer 2)) initState
      = .ok ([YNode.num 2, YNode.num 2], initState) := by
    simp [translate_list, make_yask_ast, List.replicate]
  refine ⟨?_, ht3, ?_, ht2, ?_, ?_⟩
  · exact C3_pow_cases.1 (.integer 2) (.rational 1 2) initState (by rfl)
  · have h := (C3_pow_cases.2.1 (.integer 2) 3 initState initState
      (.num 2) [.num 2, .num 2] (by omega) ht3).1
    rw [h]
    simp [fold_binary]
  · have h := (C3_pow_cases.2.2.1 (.integer 2) (-2) initState initState
      (.num 2) [.num 2] (by omega) ht2).1
    rw [h]
    simp [fold_binary]
  · have h := C3_pow_cases.2.2.2 (.integer 2) initState
    rw [h]
    rfl

/-- C4: referencing a temporary (a bare symbol whose function is neither
`Constant` nor `Dimension`) that is not yet in the registry fails with
`InvariantViolation`; translating an `Equality` whose left side is a bare
symbol already bound in the registry fails with `InvariantViolation`. -/
theorem C4_invariant_violation :
    (∀ (f : DFun) (st : TState),
      f.is_Constant = false → f.is_Dimension = false →
      mapper_lookup f st.mapper = none →
      make_yask_ast (.symbol f) st = .error .invariantViolation)
    ∧ (∀ (f : DFun) (rhs : DExpr) (st : TState) (v : MapperVal),
        mapper_lookup f st.mapper = some v →
        make_yask_ast (.eq (.symbol f) rhs) st = .error .invariantViolation) := by
  constructor
  · intro f st h1 h2 hl
    cases f with
    | constant n => simp [DFun.is_Constant] at h1
    | dimension n s => simp [DFun.is_Dimension] at h2
    | array n ax =>
      rw [make_yask_ast] <;> simp [DFun.is_Constant, DFun.is_Dimension, hl]
    | temporary n =>
      rw [make_yask_ast] <;> simp [DFun.is_Constant, DFun.is_Dimension, hl]
  · intro f rhs st v hl
    rw [make_yask_ast]
    simp [hl]

/-- C4 witness: referencing the temporary `r0` in the empty registry
fails; re-binding a temporary `r1` already bound in the registry fails. -/
theorem C4_witness :
    (DFun.temporary "r0").is_Constant = false
    ∧ (DFun.temporary "r0").is_Dimension = false
    ∧ mapper_lookup (.temporary "r0") initState.mapper = none
    ∧ make_yask_ast (.symbol (.temporary "r0")) initState
        = .error .invariantViolation
    ∧ mapper_lookup (.temporary "r1")
        (TState.mk [(.temporary "r1", .node (some (.num 1)))] [] [] true).mapper
        = some (.node (some (.num 1)))
    ∧ make_yask_ast (.eq (.symbol (.temporary "r1")) (.integer 5))
        (TState.mk [(.temporary "r1", .node (some (.num 1)))] [] [] true)
        = .error .invariantViolation := by
  refine ⟨rfl, rfl, rfl, ?_, ?_, ?_⟩
  · exact C4_invariant_violation.1 (.temporary "r0") initState rfl rfl rfl
  · simp [mapper_lookup]
  · exact C4_invariant_violation.2 (.temporary "r1") (.integer 5)
      (TState.mk [(.temporary "r1", .node (some (.num 1)))] [] [] true)
      (.node (some (.num 1))) (by simp [mapper_lookup])

/-- C5: an `Equality` whose left side is a bare symbol not yet bound
stores the translated right-hand side in the registry under that symbol's
function and returns no node; consequently the synthesizer's equation loop
appends nothing to the processed list for that expression and attaches no
guard, even when conditions were collected for it. -/
theorem C5_local_binding :
    (∀ (f : DFun) (rhs : DExpr) (st st' : TState) (r : Option YNode),
      mapper_lookup f st.mapper = none →
      make_yask_ast rhs st = .ok (r, st') →
      make_yask_ast (.eq (.symbol f) rhs) st
        = .ok (none, { st' with mapper := mapper_insert f (.node r) st'.mapper }))
    ∧ (∀ (k : DExpr) (v : List YNode) (rest : List (DExpr × List YNode))
        (processed : List ProcEq) (st st1 : TState),
        make_yask_ast k st = .ok (none, st1) →
        process_conditions ((k, v) :: rest) processed st
          = process_conditions rest processed st1) := by
  constructor
  · intro f rhs st st' r hl hr
    rw [make_yask_ast]
    simp [hl, hr]
  · intro k v rest processed st st1 hk
    rw [process_conditions, hk]

/-- C5 witness: binding `r0 := 7` in the empty registry stores the
constant node and yields no equation; the synthesizer's loop over that single
expression (with a collected condition) appends nothing to the processed
list. -/
theorem C5_witness :
    make_yask_ast (.eq (.symbol (.temporary "r0")) (.integer 7)) initState
        = .ok (none, TState.mk [(.temporary "r0", .node (some (.num 7)))] [] [] true)
    ∧ process_conditions
        [(.eq (.symbol (.temporary "r0")) (.integer 7),
          [.notLess (.domainIndex "x") (.num 0)])] [] initState
        = .ok ([], TState.mk [(.temporary "r0", .node (some (.num 7)))] [] [] true) := by
  have h1 := C5_local_binding.1 (.temporary "r0") (.integer 7) initState initState
    (some (.num 7)) rfl (by simp [make_yask_ast])
  have heq : ({ initState with
      mapper := mapper_insert (.temporary "r0") (.node (some (.num 7)))
        initState.mapper } : TState)
      = TState.mk [(.temporary "r0", .node (some (.num 7)))] [] [] true := by
    simp [initState, mapper_insert]
  constructor
  · rw [h1, heq]
  · have h2 := C5_local_binding.2
      (.eq (.symbol (.temporary "r0")) (.integer 7))
      [.notLess (.domainIndex "x") (.num 0)] [] [] initState
      (TState.mk [(.temporary "r0", .node (some (.num 7)))] [] [] true)
      (by rw [h1, heq])
    rw [h2, process_conditions]

/-! ## Concrete inputs used by witnesses and counterexamples -/

/-- A spatial array `u(x)`. -/
def uFun : DFun := .array "u" [("x", .space)]

/-- The access `u[x]` (affine index with zero shift on the base dimension). -/
def uAccess : DExpr := .indexed uFun [.affine ("x", .space) false ("x", .space) 0]

/-- The equation `u[x] = 0`. -/
def eqA : DExpr := .eq uAccess (.integer 0)

/-- The equation `u[x] = 1`. -/
def eqB : DExpr := .eq uAccess (.integer 1)

/-- The translated grid access `u[x]`. -/
def uNode : YNode := .gridPoint "u" [.domainIndex "x"]

/-- The state after translating the first access to `u`. -/
def stU : TState := ⟨[(uFun, .gridHandle "u")], [("u", [.domainIndex "x"])], [], false⟩

/-! ## Claims about the condition synthesizer -/

/-- C2: whenever `yaskizer` succeeds having appended `N` equation nodes to
the processed list, exactly `N-1` flow-dependency registrations are made, the
`j`-th being the call `add_flow_dependency(frm, to)` with
`frm = processed[j+1]` and `to = processed[j]` (the source's own naming: node
`j` depends on node `j+1` in emission order), and no other registrations are
made (`deps` is exactly this list). -/
theorem C2_flow_dependencies :
    ∀ (trees : List IterTree) (st₀ : TState) (processed : List ProcEq)
      (deps : List (ProcEq × ProcEq)) (st : TState),
      yaskizer trees st₀ = .ok (processed, deps, st) →
      deps.length = processed.length - 1
      ∧ deps = mk_flow_deps processed
      ∧ ∀ (j : Nat) (hj : j + 1 < processed.length),
          deps[j]? = some (processed.get ⟨j + 1, hj⟩, processed.get ⟨j, by omega⟩) := by
  intro trees st₀ processed deps st h
  rw [yaskizer] at h
  cases hl : yaskizer_loop trees [] { st₀ with depCheckEnabled := false } with
  | error err => rw [hl] at h; simp at h
  | ok v =>
    obtain ⟨p, s1⟩ := v
    rw [hl] at h
    simp at h
    obtain ⟨h1, h2, h3⟩ := h
    subst h1
    subst h2
    subst h3
    exact ⟨mk_flow_deps_length _, rfl,
      fun j hj => mk_flow_deps_get _ j hj⟩

/-- C2 witness: a run with two processed equations registers exactly one
flow dependency, `add_flow_dependency(frm = processed[1], to = processed[0])`. -/
theorem C2_witness :
    yaskizer [⟨[eqA, eqB], []⟩] initState
      = .ok ([⟨.equation uNode (.num 0), none⟩, ⟨.equation uNode (.num 1), none⟩],
          [(⟨.equation uNode (.num 1), none⟩, ⟨.equation uNode (.num 0), none⟩)], stU)
    ∧ ([(⟨⟨.equation uNode (.num 1), none⟩, ⟨.equation uNode (.num 0), none⟩⟩)]
          : List (ProcEq × ProcEq)).length
      = ([⟨.equation uNode (.num 0), none⟩, ⟨.equation uNode (.num 1), none⟩]
          : List ProcEq).length - 1 := by
  have hrun : yaskizer [⟨[eqA, eqB], []⟩] initState
      = .ok ([⟨.equation uNode (.num 0), none⟩, ⟨.equation uNode (.num 1), none⟩],
          [(⟨.equation uNode (.num 1), none⟩, ⟨.equation uNode (.num 0), none⟩)], stU) := by
    simp [yaskizer, yaskizer_loop, process_tree, attach_conditions,
      process_conditions, make_yask_ast, mapper_lookup, mapper_insert,
      idx_to_node, dim_to_node, DFun.is_Constant, DFun.is_Dimension,
      DFun.pyName, initState, eqA, eqB, uAccess, uFun, uNode, stU,
      mk_flow_deps]
  exact ⟨hrun, (C2_flow_dependencies _ _ _ _ _ hrun).1⟩

/-- C6: for one tree with one expression and one sub-region dimension with
statically known offsets `lo`, `up`, the produced equation carries exactly one
guard, the conjunction of exactly two comparison nodes: a not-less-than of the
parent domain index against `first-domain-index + lo` and a not-greater-than
against `last-domain-index + up`. -/
theorem C6_static_offsets_guard :
    ∀ (e : DExpr) (pn : String) (lo up : Int) (seq : Bool) (ext : Option Nat)
      (dir : Direction) (st₀ st' : TState) (n : YNode),
      make_yask_ast e { st₀ with depCheckEnabled := false } = .ok (some n, st') →
      yaskizer [⟨[e], [⟨true, pn, some lo, some up, seq, ext, dir⟩]⟩] st₀
        = .ok ([⟨n, some (.andOp
            (.notLess (.domainIndex pn)
              (.addOp (.firstIndex (.domainIndex pn)) (.num (lo : ℚ))))
            (.notGreater (.domainIndex pn)
              (.addOp (.lastIndex (.domainIndex pn)) (.num (up : ℚ)))))⟩],
          [], st') := by
  intro e pn lo up seq ext dir st₀ st' n hm
  rw [yaskizer]
  rw [show yaskizer_loop [⟨[e], [⟨true, pn, some lo, some up, seq, ext, dir⟩]⟩] []
        { st₀ with depCheckEnabled := false }
      = match process_conditions [(e, [.notLess (.domainIndex pn)
            (.addOp (.firstIndex (.domainIndex pn)) (.num (lo : ℚ))),
          .notGreater (.domainIndex pn)
            (.addOp (.lastIndex (.domainIndex pn)) (.num (up : ℚ)))])] []
          { st₀ with depCheckEnabled := false } with
        | .error err => .error err
        | .ok (p1, s1) => .ok (p1, s1) from rfl]
  rw [show process_conditions [(e, [.notLess (.domainIndex pn)
            (.addOp (.firstIndex (.domainIndex pn)) (.num (lo : ℚ))),
          .notGreater (.domainIndex pn)
            (.addOp (.lastIndex (.domainIndex pn)) (.num (up : ℚ)))])] []
          { st₀ with depCheckEnabled := false }
      = match make_yask_ast e { st₀ with depCheckEnabled := false } with
        | .error err => .error err
        | .ok (none, st1) => .ok (([] : List ProcEq), st1)
        | .ok (some ye, st1) => .ok ([⟨ye, some (.andOp
            (.notLess (.domainIndex pn)
              (.addOp (.firstIndex (.domainIndex pn)) (.num (lo : ℚ))))
            (.notGreater (.domainIndex pn)
              (.addOp (.lastIndex (.domainIndex pn)) (.num (up : ℚ)))))⟩], st1)
      from rfl]
  rw [hm]
  rfl

/-- C6 witness: the single equation `u[x] = 0` inside a sub-region
iteration with static offsets `lo = 0`, `up = 0` receives exactly the guard
`and(x !< first(x) + 0, x !> last(x) + 0)`. -/
theorem C6_witness :
    make_yask_ast eqA { initState with depCheckEnabled := false }
      = .ok (some (.equation uNode (.num 0)), stU)
    ∧ yaskizer [⟨[eqA], [⟨true, "x", some 0, some 0, false, none, .forward⟩]⟩] initState
      = .ok ([⟨.equation uNode (.num 0), some (.andOp
          (.notLess (.domainIndex "x")
            (.addOp (.firstIndex (.domainIndex "x")) (.num 0)))
          (.notGreater (.domainIndex "x")
            (.addOp (.lastIndex (.domainIndex "x")) (.num 0))))⟩],
        [], stU) := by
  have hm : make_yask_ast eqA { initState with depCheckEnabled := false }
      = .ok (some (.equation uNode (.num 0)), stU) := by
    simp [make_yask_ast, mapper_lookup, mapper_insert, idx_to_node, dim_to_node,
      DFun.pyName, initState, eqA, uAccess, uFun, uNode, stU]
  have h := C6_static_offsets_guard eqA "x" 0 0 false none .forward
    initState stU (.equation uNode (.num 0)) hm
  refine ⟨hm, ?_⟩
  rw [h]
  norm_num

/-- One step of the main loop. -/
theorem yaskizer_loop_cons (t : IterTree) (rest : List IterTree)
    (processed : List ProcEq) (st : TState) :
    yaskizer_loop (t :: rest) processed st
      = match process_tree t processed st with
        | .error err => .error err
        | .ok (p1, s1) => yaskizer_loop rest p1 s1 := rfl

/-- One step of the per-tree condition-attachment fold. -/
theorem attach_conditions_cons (i : Iteration) (rest : List Iteration)
    (conds : List (DExpr × List YNode)) :
    attach_conditions (i :: rest) conds
      = match subdomain_conditions i conds with
        | .error err => .error err
        | .ok c2 => attach_conditions rest c2 := rfl

/-- Unfolding of the per-tree processing. -/
theorem process_tree_def (t : IterTree) (processed : List ProcEq) (st : TState) :
    process_tree t processed st
      = match attach_conditions t.iterations
          (t.expressions.map fun e => (e, ([] : List YNode))) with
        | .error err => .error err
        | .ok conds => process_conditions conds processed st := rfl

/-- C1 (amended): for a sequential sub-region iteration whose lower/upper
offsets are not statically known integers but whose extent `E` is statically
known, the synthesizer unwinds the (expression, conditions) pairs into
replicas carrying an added equality predicate `ydim == edgeIndex + offset`.
When the traversal direction is forward (Forward), every pair is replicated
into exactly `E` replicas, the edge index being the **last** domain index with
offsets counting forward (`-E+1` up to `0`).  When the direction is reverse
(Backward), the edge index is the **first** domain index with offsets counting
backward (`E-1` down to `0`), but only the **first** pair is replicated into
`E` replicas: `reversed(range(extent))` is a one-shot iterator, exhausted
after the first pair, so every later pair receives zero replicas and is
silently dropped. -/
theorem C1_sequential_unwinding :
    ∀ (pn : String) (ol ou : Option Int) (E : Nat) (dir : Direction)
      (conds : List (DExpr × List YNode)),
      (ol = none ∨ ou = none) →
      (dir = .backward →
        subdomain_conditions ⟨true, pn, ol, ou, true, some E, dir⟩ conds
          = .ok (match conds with
              | [] => []
              | p :: _ =>
                ((List.range E).reverse.map Int.ofNat).map fun (r : Int) =>
                  (p.1, p.2 ++ [.equalsOp (.domainIndex pn)
                    (.addOp (.firstIndex (.domainIndex pn)) (.num (r : ℚ)))])))
      ∧ (dir = .forward →
        subdomain_conditions ⟨true, pn, ol, ou, true, some E, dir⟩ conds
          = .ok (conds.flatMap fun p =>
              (((List.range E).map fun (k : Nat) => -(E : Int) + 1 + (k : Int)).map
                fun (r : Int) =>
                (p.1, p.2 ++ [.equalsOp (.domainIndex pn)
                  (.addOp (.lastIndex (.domainIndex pn)) (.num (r : ℚ)))]))))
      ∧ (∀ res, subdomain_conditions ⟨true, pn, ol, ou, true, some E, dir⟩ conds
            = .ok res →
            res.length
              = (if dir = .backward then min conds.length 1 else conds.length) * E) := by
  intro pn ol ou E dir conds h
  have hstep : ∀ d2 : Direction,
      subdomain_conditions ⟨true, pn, ol, ou, true, some E, d2⟩ conds
        = (match d2 with
          | .backward => .ok (unwind_once (.domainIndex pn)
              (.firstIndex (.domainIndex pn)) (backward_range E) conds)
          | .forward => .ok (unwind (.domainIndex pn)
              (.lastIndex (.domainIndex pn)) (forward_range E) conds)
          | .other => .error .bareAssertFalse) := by
    intro d2
    rcases h with h | h
    · subst h; cases ou <;> cases d2 <;> simp [subdomain_conditions]
    · subst h; cases ol <;> cases d2 <;> simp [subdomain_conditions]
  refine ⟨?_, ?_, ?_⟩
  · intro hd
    subst hd
    rw [hstep .backward]
    cases conds <;> rfl
  · intro hd
    subst hd
    rw [hstep .forward]
    rfl
  · intro res hres
    have hbl : (backward_range E).length = E := by
      rw [backward_range, List.length_map, List.length_reverse, List.length_range]
    have hfl : (forward_range E).length = E := by
      rw [forward_range, List.length_map, List.length_range]
    cases dir with
    | backward =>
      rw [hstep .backward] at hres
      simp at hres
      rw [← hres, unwind_once_length, hbl]
      simp
    | forward =>
      rw [hstep .forward] at hres
      simp at hres
      rw [← hres, unwind_length, hfl]
      simp
    | other =>
      rw [hstep .other] at hres
      simp at hres

/-- C1 counterexample: a Backward sequential sub-region iteration of static
extent 2 over the two expressions `u[x] = 0` and `u[x] = 1`.  The claim
predicts `2 × 2 = 4` replicated (expression, condition) pairs, each guarded by
a predicate built on the **last** domain index.  The program produces only two
equations — both replicas of the **first** expression, the second expression
being silently dropped (the reversed-range iterator is exhausted after the
first pair) — and their guards `x == first_domain_index(x) + 1` and
`x == first_domain_index(x) + 0` are built on the first domain index,
containing no last-domain-index node at all. -/
theorem C1_counterexample :
    yaskizer [⟨[eqA, eqB], [⟨true, "x", none, none, true, some 2, .backward⟩]⟩]
        initState
      = .ok ([⟨.equation uNode (.num 0), some (.equalsOp (.domainIndex "x")
                (.addOp (.firstIndex (.domainIndex "x")) (.num 1)))⟩,
              ⟨.equation uNode (.num 0), some (.equalsOp (.domainIndex "x")
                (.addOp (.firstIndex (.domainIndex "x")) (.num 0)))⟩],
          [(⟨.equation uNode (.num 0), some (.equalsOp (.domainIndex "x")
              (.addOp (.firstIndex (.domainIndex "x")) (.num 0)))⟩,
            ⟨.equation uNode (.num 0), some (.equalsOp (.domainIndex "x")
              (.addOp (.firstIndex (.domainIndex "x")) (.num 1)))⟩)],
          stU)
    ∧ ([⟨.equation uNode (.num 0), some (.equalsOp (.domainIndex "x")
          (.addOp (.firstIndex (.domainIndex "x")) (.num 1)))⟩,
        ⟨.equation uNode (.num 0), some (.equalsOp (.domainIndex "x")
          (.addOp (.firstIndex (.domainIndex "x")) (.num 0)))⟩] : List ProcEq).length
        ≠ [eqA, eqB].length * 2
    ∧ count_where is_lastIdx (.equalsOp (.domainIndex "x")
        (.addOp (.firstIndex (.domainIndex "x")) (.num 1))) = 0
    ∧ count_where is_lastIdx (.equalsOp (.domainIndex "x")
        (.addOp (.firstIndex (.domainIndex "x")) (.num 0))) = 0
    ∧ count_where is_firstIdx (.equalsOp (.domainIndex "x")
        (.addOp (.firstIndex (.domainIndex "x")) (.num 1))) = 1 := by
  refine ⟨?_, ?_, ?_, ?_, ?_⟩
  · simp [yaskizer, yaskizer_loop, process_tree, attach_conditions,
      subdomain_conditions, unwind_once, backward_range, process_conditions,
      make_yask_ast, mapper_lookup, mapper_insert, idx_to_node, dim_to_node,
      DFun.is_Constant, DFun.is_Dimension, DFun.pyName, initState, eqA, eqB,
      uAccess, uFun, uNode, stU, mk_flow_deps, List.range_succ]
  · simp [eqA, eqB]
  · simp [count_where_eq, subnodes, is_lastIdx]
  · simp [count_where_eq, subnodes, is_lastIdx]
  · simp [count_where_eq, subnodes, is_firstIdx]

/-- C1 witness (for the amended statement): two (expression, conditions)
pairs under a Backward sequential sub-region iteration of static extent 2 with
unknown offsets unwind into exactly 2 replicas of the first pair, guarded by
`x == first_domain_index(x) + 1` and `x == first_domain_index(x) + 0`, while
the second pair is dropped. -/
theorem C1_witness :
    subdomain_conditions ⟨true, "x", none, none, true, some 2, .backward⟩
        [(eqA, []), (eqB, [])]
      = .ok [(eqA, [.equalsOp (.domainIndex "x")
                (.addOp (.firstIndex (.domainIndex "x")) (.num 1))]),
             (eqA, [.equalsOp (.domainIndex "x")
                (.addOp (.firstIndex (.domainIndex "x")) (.num 0))])]
    ∧ min [(eqA, ([] : List YNode)), (eqB, ([] : List YNode))].length 1 * 2 = 2 := by
  have h := (C1_sequential_unwinding "x" none none 2 .backward
    [(eqA, []), (eqB, [])] (Or.inl rfl)).1 rfl
  constructor
  · rw [h]
    simp [List.range_succ]
  · simp

/-- C8: a sub-region iteration whose offsets are not statically known and
that is not sequential makes the synthesizer fail fatally with
`UnsupportedConstruct` (`NotImplementedError`), and the pass produces no
output at all. -/
theorem C8_parallel_unsupported :
    ∀ (es : List DExpr) (pn : String) (ol ou : Option Int) (ext : Option Nat)
      (dir : Direction) (rest : List Iteration) (more : List IterTree) (st₀ : TState),
      (ol = none ∨ ou = none) →
      yaskizer (⟨es, ⟨true, pn, ol, ou, false, ext, dir⟩ :: rest⟩ :: more) st₀
        = .error .unsupportedConstruct := by
  intro es pn ol ou ext dir rest more st₀ h
  have hsub : subdomain_conditions ⟨true, pn, ol, ou, false, ext, dir⟩
      (es.map fun e => (e, ([] : List YNode))) = .error .unsupportedConstruct := by
    rcases h with h | h
    · subst h; cases ou <;> simp [subdomain_conditions]
    · subst h; cases ol <;> simp [subdomain_conditions]
  rw [yaskizer, yaskizer_loop_cons, process_tree_def, attach_conditions_cons, hsub]

/-- C8 witness. -/
theorem C8_witness :
    yaskizer [⟨[eqA], [⟨true, "x", none, some 3, false, some 5, .forward⟩]⟩] initState
      = .error .unsupportedConstruct :=
  C8_parallel_unsupported [eqA] "x" none (some 3) (some 5) .forward [] [] initState
    (Or.inl rfl)

/-- C9: when the unwinding branch is reached (sub-region iteration,
offsets not statically known, sequential, extent statically known) with a
traversal direction that is neither Forward nor Backward, the synthesizer
aborts via the bare `assert False` — an untyped assertion failure, not an
`UnsupportedConstruct` or `InvariantViolation` report. -/
theorem C9_direction_assert :
    ∀ (es : List DExpr) (pn : String) (ol ou : Option Int) (E : Nat)
      (rest : List Iteration) (more : List IterTree) (st₀ : TState),
      (ol = none ∨ ou = none) →
      yaskizer (⟨es, ⟨true, pn, ol, ou, true, some E, .other⟩ :: rest⟩ :: more) st₀
        = .error .bareAssertFalse
      ∧ YErr.bareAssertFalse ≠ YErr.unsupportedConstruct
      ∧ YErr.bareAssertFalse ≠ YErr.invariantViolation := by
  intro es pn ol ou E rest more st₀ h
  have hsub : subdomain_conditions ⟨true, pn, ol, ou, true, some E, .other⟩
      (es.map fun e => (e, ([] : List YNode))) = .error .bareAssertFalse := by
    rcases h with h | h
    · subst h; cases ou <;> simp [subdomain_conditions]
    · subst h; cases ol <;> simp [subdomain_conditions]
  refine ⟨?_, by simp, by simp⟩
  rw [yaskizer, yaskizer_loop_cons, process_tree_def, attach_conditions_cons, hsub]

/-- C9 witness. -/
theorem C9_witness :
    yaskizer [⟨[eqA], [⟨true, "x", some 1, none, true, some 4, .other⟩]⟩] initState
      = .error .bareAssertFalse :=
  (C9_direction_assert [eqA] "x" (some 1) none 4 [] [] initState (Or.inr rfl)).1

/-- C10: for a sequential sub-region iteration whose offsets are not
statically known and whose extent is also not statically known, the
`i.extent()` query raises a `TypeError` that propagates uncaught out of the
synthesizer — a failure that is neither `UnsupportedConstruct` nor
`InvariantViolation`. -/
theorem C10_dynamic_extent :
    ∀ (es : List DExpr) (pn : String) (ol ou : Option Int) (dir : Direction)
      (rest : List Iteration) (more : List IterTree) (st₀ : TState),
      (ol = none ∨ ou = none) →
      yaskizer (⟨es, ⟨true, pn, ol, ou, true, none, dir⟩ :: rest⟩ :: more) st₀
        = .error .typeError
      ∧ YErr.typeError ≠ YErr.unsupportedConstruct
      ∧ YErr.typeError ≠ YErr.invariantViolation := by
  intro es pn ol ou dir rest more st₀ h
  have hsub : subdomain_conditions ⟨true, pn, ol, ou, true, none, dir⟩
      (es.map fun e => (e, ([] : List YNode))) = .error .typeError := by
    rcases h with h | h
    · subst h; cases ou <;> simp [subdomain_conditions]
    · subst h; cases ol <;> simp [subdomain_conditions]
  refine ⟨?_, by simp, by simp⟩
  rw [yaskizer, yaskizer_loop_cons, process_tree_def, attach_conditions_cons, hsub]

/-- C10 witness. -/
theorem C10_witness :
    yaskizer [⟨[eqA], [⟨true, "x", none, none, true, none, .forward⟩]⟩] initState
      = .error .typeError :=
  (C10_dynamic_extent [eqA] "x" none none .forward [] [] initState (Or.inl rfl)).1

end DevitoYask
